import Mathlib

/-!
Shallow embedding of the bulk-mutation engine of the `Cassandra` class in
`src/bindings/databases/cassandra_db.py`: the batched insert pipeline
`batch_insert_dicts_to_cassandra` (with its inner worker
`execute_table_batch`), the batched multi-table delete
`delete_all_rows_batch_multiple` (with its inner workers `process_table`
and `execute_delete_batch`), and the row-by-row `delete_all_rows`.

Conventions of the embedding:
* Network effects (`session.execute`, `session.prepare`), `time.sleep` and
  logging are replaced by oracles and traces: whether the grouped execution
  of a batch raises at a given attempt is supplied by a `Bool`-valued
  oracle `fails`, and the sleep durations the code would perform are
  returned as an explicit list.
* `time.time()` differences are passed in as an `elapsed : ℚ` parameter;
  Python floats are modelled as rationals.
* The thread pools (`ThreadPoolExecutor` + `as_completed`) complete tasks
  in a nondeterministic order; the model processes tasks in submission
  order.  Every aggregate proved below (per-table sums, batch counters,
  key lookups) is invariant under reordering of task completions.
* Python dicts are modelled as insertion-ordered association lists;
  `defaultdict(list)` becomes the `addToGroups`/`groupPairsBy` fold.
-/

namespace CassandraModel

/-- Column names of the wide-column store. -/
abbrev ColName := String

/-- Cell values; their concrete type is irrelevant to the orchestration. -/
abbrev Value := Int

/-- A record to insert: a Python dict, i.e. an insertion-ordered list of
column/value pairs. -/
abbrev Record := List (ColName × Value)

/-- A primary-key tuple selecting one row. -/
abbrev RowKey := List Value

/-- The slice of cluster metadata the delete paths read:
`table_metadata.partition_key` and `table_metadata.clustering_key`. -/
structure TableMeta where
  partition_key : List ColName
  clustering_key : List ColName
deriving Repr, DecidableEq

/-- The slicing `rows[i:i+n]` produced by `for i in range(0, len(rows), n)`:
the list cut into consecutive chunks of size `n`, the last possibly
shorter.  Python raises `ValueError` when the step `n` is `0`; the model is
only ever used with `1 ≤ n` and returns `[]` there. -/
def chunkList (n : Nat) : List α → List (List α)
  | [] => []
  | a :: t =>
    if _h : n = 0 then []
    else (a :: t).take n :: chunkList n ((a :: t).drop n)
termination_by l => l.length
decreasing_by
  simp only [List.length_drop, List.length_cons]
  omega

/-- Enumerates a list with indices starting at the given counter, applying
`g` to each index/element pair (models Python loops that carry a running
batch or page number). -/
def mapWithIdx (g : Nat → α → β) : Nat → List α → List β
  | _, [] => []
  | i, a :: rest => g i a :: mapWithIdx g (i + 1) rest

/-- One step of the `defaultdict(list)` pattern
`groups[key].append(value)`: dict insertion order is preserved, a fresh
key is appended at the end. -/
def addToGroups [DecidableEq κ] : List (κ × List β) → κ → β → List (κ × List β)
  | [], k, v => [(k, [v])]
  | (k', vs) :: rest, k, v =>
    if k' = k then (k', vs ++ [v]) :: rest
    else (k', vs) :: addToGroups rest k v

/-- `for x in l: groups[key x].append(val x)` over an initially empty
`defaultdict(list)`. -/
def groupPairsBy [DecidableEq κ] (key : α → κ) (val : α → β) (l : List α) :
    List (κ × List β) :=
  l.foldl (fun gs a => addToGroups gs (key a) (val a)) []

/-- `tuple(sorted(record.keys()))`: the sorted column-name tuple used as
the sub-group key inside `execute_table_batch`. -/
def columnsKey (r : Record) : List ColName :=
  List.insertionSort (· ≤ ·) (r.map Prod.fst)

/-- `columns_groups`: the records of one batch grouped by their sorted
column set (`columns_groups[columns_key].append(record)`). -/
def columns_groups (batch_data : List Record) : List (List ColName × List Record) :=
  groupPairsBy columnsKey id batch_data

/-- Observable outcome of one run of the inner closure
`execute_table_batch` of `batch_insert_dicts_to_cassandra` on one batch:
the returned `(successful, failed)` counts, the attempt indices whose
failure message was appended to `local_errors`, the durations passed to
`time.sleep`, and how many times the try-block was entered. -/
structure BatchOutcome where
  successful : Nat
  failed : Nat
  errors : List Nat
  sleeps : List ℚ
  attempts : Nat
deriving Repr, DecidableEq

/-- The retry loop `for attempt in range(max_retries)` of
`execute_table_batch`, entered at attempt index `attempt`; `fails a`
tells whether the grouped execution raises at attempt `a`.  On a raise at
the last attempt the batch is marked failed; otherwise the worker sleeps
`retry_delay * (attempt + 1)` and retries. -/
def execute_table_batch_from (fails : Nat → Bool) (batchLen maxRetries : Nat)
    (retryDelay : ℚ) (attempt : Nat) : BatchOutcome :=
  if h : attempt < maxRetries then
    if fails attempt then
      if attempt = maxRetries - 1 then
        { successful := 0, failed := batchLen, errors := [attempt],
          sleeps := [], attempts := 1 }
      else
        let r := execute_table_batch_from fails batchLen maxRetries retryDelay (attempt + 1)
        { successful := r.successful, failed := r.failed,
          errors := attempt :: r.errors,
          sleeps := retryDelay * ((attempt : ℚ) + 1) :: r.sleeps,
          attempts := r.attempts + 1 }
    else
      { successful := batchLen, failed := 0, errors := [], sleeps := [],
        attempts := 1 }
  else
    { successful := 0, failed := 0, errors := [], sleeps := [], attempts := 0 }
termination_by maxRetries - attempt

/-- `execute_table_batch` run from its first attempt. -/
def execute_table_batch (fails : Nat → Bool) (batchLen maxRetries : Nat)
    (retryDelay : ℚ) : BatchOutcome :=
  execute_table_batch_from fails batchLen maxRetries retryDelay 0

/-- Observable outcome of one run of `execute_delete_batch` inside
`process_table` of `delete_all_rows_batch_multiple`. -/
structure DeleteOutcome where
  successful : Nat
  failed : Nat
  sleeps : List ℚ
  attempts : Nat
deriving Repr, DecidableEq

/-- The retry loop of `execute_delete_batch`: on success it returns
`(len(rows_batch), 0)`; on a raise at the last attempt it returns
`(0, len(rows_batch))`; the fall-through `return 0, len(rows_batch)` after
the loop is reached when `max_retries` is `0`. -/
def execute_delete_batch_from (fails : Nat → Bool) (rowsLen maxRetries : Nat)
    (retryDelay : ℚ) (attempt : Nat) : DeleteOutcome :=
  if h : attempt < maxRetries then
    if fails attempt then
      if attempt = maxRetries - 1 then
        { successful := 0, failed := rowsLen, sleeps := [], attempts := 1 }
      else
        let r := execute_delete_batch_from fails rowsLen maxRetries retryDelay (attempt + 1)
        { successful := r.successful, failed := r.failed,
          sleeps := retryDelay * ((attempt : ℚ) + 1) :: r.sleeps,
          attempts := r.attempts + 1 }
    else
      { successful := rowsLen, failed := 0, sleeps := [], attempts := 1 }
  else
    { successful := 0, failed := rowsLen, sleeps := [], attempts := 0 }
termination_by maxRetries - attempt

/-- `execute_delete_batch` run from its first attempt. -/
def execute_delete_batch (fails : Nat → Bool) (rowsLen maxRetries : Nat)
    (retryDelay : ℚ) : DeleteOutcome :=
  execute_delete_batch_from fails rowsLen maxRetries retryDelay 0

/-- The per-table accumulator
`table_stats[t] = {'successful': .., 'failed': .., 'batches': .., 'errors': ..}`
of `batch_insert_dicts_to_cassandra`.  An error message
`"Таблица t, батч b, попытка a+1: .."` is identified by its
`(batch_num, attempt)` pair. -/
structure TableStats where
  successful : Nat
  failed : Nat
  batches : Nat
  errors : List (Nat × Nat)
deriving Repr, DecidableEq

/-- The `defaultdict` default `{'successful': 0, 'failed': 0, 'batches': 0,
'errors': []}`. -/
def TableStats.empty : TableStats :=
  { successful := 0, failed := 0, batches := 0, errors := [] }

/-- A value of the heterogeneous report dict returned by
`batch_insert_dicts_to_cassandra`. -/
inductive Val where
  | nat : Nat → Val
  | rat : ℚ → Val
  | tbl : List (String × TableStats) → Val
deriving Repr, DecidableEq

/-- `tables_data`: the input records grouped by table name
(`tables_data[table_name].append(data_dict)`). -/
def tables_data (records : List (String × Record)) : List (String × List Record) :=
  groupPairsBy Prod.fst Prod.snd records

/-- `all_tasks`: for each table, its records are cut into batches of
`batch_size`, numbered from 1 (`batch_num = i // batch_size + 1`), giving
the `(table_name, batch_data, batch_num)` triples submitted to the pool. -/
def mkTasks (batch_size : Nat) (td : List (String × List Record)) :
    List (String × List Record × Nat) :=
  td.flatMap fun p => mapWithIdx (fun i b => (p.1, b, i)) 1 (chunkList batch_size p.2)

/-- `defaultdict` update of one entry of `table_stats`: the entry for
`name` is passed through `f`, starting from the default when absent. -/
def updateTable : List (String × TableStats) → String →
    (TableStats → TableStats) → List (String × TableStats)
  | [], name, f => [(name, f TableStats.empty)]
  | (n, ts) :: rest, name, f =>
    if n = name then (n, f ts) :: rest
    else (n, ts) :: updateTable rest name f

/-- Folding one worker outcome into one table's accumulator:
`table_stats[t]['successful'] += ..` etc., with the worker's error messages
tagged by the task's batch number. -/
def applyOutcome (r : BatchOutcome) (bn : Nat) (ts : TableStats) : TableStats :=
  { successful := ts.successful + r.successful,
    failed := ts.failed + r.failed,
    batches := ts.batches + 1,
    errors := ts.errors ++ r.errors.map (fun a => (bn, a)) }

/-- The worker outcome of one task `(table_name, batch_data, batch_num)`. -/
def taskOutcome (fails : String → Nat → Nat → Bool) (maxRetries : Nat)
    (retryDelay : ℚ) (task : String × List Record × Nat) : BatchOutcome :=
  execute_table_batch (fails task.1 task.2.2) task.2.1.length maxRetries retryDelay

/-- Processing of one completed future in the `as_completed` loop: the
worker outcome of the task's batch is folded into `table_stats`.  The
failure oracle is keyed by table name, batch number and attempt. -/
def taskStep (fails : String → Nat → Nat → Bool) (maxRetries : Nat) (retryDelay : ℚ)
    (stats : List (String × TableStats)) (task : String × List Record × Nat) :
    List (String × TableStats) :=
  updateTable stats task.1
    (applyOutcome (taskOutcome fails maxRetries retryDelay task) task.2.2)

/-- The whole `as_completed` aggregation loop over all submitted tasks
(the model fixes submission order; all aggregates proved below are
order-invariant). -/
def runTasks (fails : String → Nat → Nat → Bool) (maxRetries : Nat) (retryDelay : ℚ)
    (tasks : List (String × List Record × Nat)) : List (String × TableStats) :=
  tasks.foldl (taskStep fails maxRetries retryDelay) []

/-- `sum(stats['successful'] for stats in table_stats.values())`. -/
def totalSuccessful (stats : List (String × TableStats)) : Nat :=
  (stats.map fun p => p.2.successful).sum

/-- `sum(stats['failed'] for stats in table_stats.values())`. -/
def totalFailed (stats : List (String × TableStats)) : Nat :=
  (stats.map fun p => p.2.failed).sum

/-- `sum(stats['batches'] for stats in table_stats.values())`. -/
def totalBatches (stats : List (String × TableStats)) : Nat :=
  (stats.map fun p => p.2.batches).sum

/-- `batch_insert_dicts_to_cassandra`: for an empty records list it
returns the early dict `{'total_records': 0, 'tables': {}, 'execution_time': 0}`;
otherwise it groups the records by table, cuts each table's records into
batches, executes every batch through `execute_table_batch`, and returns
the `final_stats` dict in its literal key order. -/
def batch_insert_dicts_to_cassandra (fails : String → Nat → Nat → Bool)
    (records : List (String × Record)) (batch_size maxRetries : Nat)
    (retryDelay elapsed : ℚ) : List (String × Val) :=
  if records = [] then
    [("total_records", Val.nat 0), ("tables", Val.tbl []),
     ("execution_time", Val.rat 0)]
  else
    let stats := runTasks fails maxRetries retryDelay
      (mkTasks batch_size (tables_data records))
    let ts := totalSuccessful stats
    let tf := totalFailed stats
    [("total_records", Val.nat records.length),
     ("total_successful", Val.nat ts),
     ("total_failed", Val.nat tf),
     ("success_rate",
       Val.rat (if records.length > 0 then (ts : ℚ) / (records.length : ℚ) * 100 else 0)),
     ("execution_time", Val.rat elapsed),
     ("records_per_second",
       Val.rat (if elapsed > 0 then (ts : ℚ) / elapsed else 0)),
     ("tables", Val.tbl stats)]

/-- `delete_all_rows`: raises `ValueError` when the table is missing from
the keyspace metadata or its primary key resolves to no columns; otherwise
`total_deleted` accumulates `len(batch)` for every concurrency-slice of
every scanned page, regardless of individual delete failures (those are
only logged).  The driver's paging with `fetch_size=page_size` is modelled
as exact `page_size` chunks of the table's rows. -/
def delete_all_rows (tablesMeta : String → Option TableMeta)
    (rowsOf : String → List RowKey) (page_size concurrency : Nat)
    (table_name : String) : Except String Nat :=
  match tablesMeta table_name with
  | none => Except.error "table not found in keyspace"
  | some m =>
    if m.partition_key ++ m.clustering_key = [] then
      Except.error "cannot determine primary key"
    else
      Except.ok (((chunkList page_size (rowsOf table_name)).map
        fun page => ((chunkList concurrency page).map List.length).sum).sum)

/-- `process_table` of `delete_all_rows_batch_multiple`: a table absent
from the metadata prepared in the outer loop yields `(table_name, 0)`;
otherwise each scanned page (numbered from 1) is cut into batches of
`batch_size` (numbered from 1 within the page) and `total_deleted`
accumulates the `successful` count of every `execute_delete_batch`
outcome.  The failure oracle is keyed by page number, batch number and
attempt. -/
def process_table (tablesMeta : String → Option TableMeta)
    (rowsOf : String → List RowKey) (fails : Nat → Nat → Nat → Bool)
    (page_size batch_size maxRetries : Nat) (retryDelay : ℚ)
    (table_name : String) : String × Nat :=
  match tablesMeta table_name with
  | none => (table_name, 0)
  | some _ =>
    let pages := chunkList page_size (rowsOf table_name)
    let total := (mapWithIdx (fun p page =>
        (mapWithIdx (fun b batch =>
            (execute_delete_batch (fails p b) (List.length batch) maxRetries retryDelay).successful)
          1 (chunkList batch_size page)).sum)
      1 pages).sum
    (table_name, total)

/-- `delete_all_rows_batch_multiple`: prepares metadata (missing tables
are skipped with a warning), then runs `process_table` per table under a
pool of `min(len(table_names), concurrency)` workers —
`ThreadPoolExecutor` raises `ValueError` when that bound is zero — and
collects `results[table_name] = deleted_count`. -/
def delete_all_rows_batch_multiple (tablesMeta : String → Option TableMeta)
    (rowsOf : String → List RowKey) (fails : String → Nat → Nat → Nat → Bool)
    (table_names : List String) (page_size batch_size concurrency maxRetries : Nat)
    (retryDelay : ℚ) : Except String (List (String × Nat)) :=
  if min table_names.length concurrency = 0 then
    Except.error "ThreadPoolExecutor: max_workers must be greater than 0"
  else
    Except.ok (table_names.map fun t =>
      process_table tablesMeta rowsOf (fails t) page_size batch_size maxRetries retryDelay t)

/-- The pages yielded by the key scan of a table whose rows are `rows`,
under `fetch_size = page_size`. -/
def scanPages (page_size : Nat) (rows : List RowKey) : List (List RowKey) :=
  chunkList page_size rows

/-- The batch sequence the executor sees: each page cut into batches of
`batch_size`, pages in order — the page-then-batch decomposition of
`process_table`. -/
def executedBatches (page_size batch_size : Nat) (rows : List RowKey) :
    List (List RowKey) :=
  (scanPages page_size rows).flatMap (chunkList batch_size)

/-! ### Lemmas about the retry workers -/

/-- The linear-backoff sleep trace `retry_delay * k` for `k = s, ..., s+n-1`. -/
def backoffSleeps (d : ℚ) (s n : Nat) : List ℚ :=
  (List.range' s n).map (fun k : Nat => d * (k : ℚ))

theorem backoffSleeps_succ (d : ℚ) (s n : Nat) :
    backoffSleeps d s (n + 1) = d * (s : ℚ) :: backoffSleeps d (s + 1) n := rfl

theorem backoffSleeps_zero (d : ℚ) (s : Nat) : backoffSleeps d s 0 = [] := rfl

theorem execute_table_batch_from_sum (fails : Nat → Bool) (len mr : Nat) (d : ℚ)
    (a : Nat) :
    (execute_table_batch_from fails len mr d a).successful
      + (execute_table_batch_from fails len mr d a).failed
      = if a < mr then len else 0 := by
  induction a using execute_table_batch_from.induct fails len mr d with
  | case1 hlt hf =>
    rw [execute_table_batch_from]
    simp only [hf, dif_pos hlt, if_pos rfl, if_true]
    simp [hlt]
  | case2 a hlt hf hne ih =>
    rw [execute_table_batch_from]
    simp only [hf, dif_pos hlt, if_neg hne, if_true]
    simp only at ih ⊢
    rw [ih, if_pos (by omega : a + 1 < mr), if_pos hlt]
  | case3 a hlt hf =>
    rw [execute_table_batch_from]
    simp only [hf, dif_pos hlt, Bool.false_eq_true, if_false]
    simp [hlt]
  | case4 a h =>
    rw [execute_table_batch_from]
    simp only [dif_neg h]
    simp [h]

theorem execute_table_batch_sum (fails : Nat → Bool) (len mr : Nat) (d : ℚ)
    (hmr : 1 ≤ mr) :
    (execute_table_batch fails len mr d).successful
      + (execute_table_batch fails len mr d).failed = len := by
  rw [execute_table_batch, execute_table_batch_from_sum,
    if_pos (by omega : 0 < mr)]

theorem execute_table_batch_successful_le (fails : Nat → Bool) (len mr : Nat)
    (d : ℚ) : (execute_table_batch fails len mr d).successful ≤ len := by
  by_cases h : 0 < mr
  · have := execute_table_batch_from_sum fails len mr d 0
    rw [if_pos h] at this
    rw [execute_table_batch]
    omega
  · rw [execute_table_batch, execute_table_batch_from, dif_neg h]
    exact Nat.zero_le _

theorem execute_table_batch_from_allFail (fails : Nat → Bool)
    (hf : ∀ x, fails x = true) (len mr : Nat) (d : ℚ) (a : Nat) (ha : a < mr) :
    execute_table_batch_from fails len mr d a =
      { successful := 0, failed := len,
        errors := List.range' a (mr - a),
        sleeps := backoffSleeps d (a + 1) (mr - 1 - a),
        attempts := mr - a } := by
  induction a using execute_table_batch_from.induct fails len mr d with
  | case1 hlt hfl =>
    rw [execute_table_batch_from]
    simp only [hfl, dif_pos hlt, if_pos rfl, if_true]
    have h1 : mr - (mr - 1) = 1 := by omega
    have h2 : mr - 1 - (mr - 1) = 0 := by omega
    rw [h1, h2]
    rfl
  | case2 a hlt hfl hne ih =>
    rw [execute_table_batch_from]
    simp only [hfl, dif_pos hlt, if_neg hne, if_true]
    simp only at ih ⊢
    rw [ih (by omega : a + 1 < mr)]
    have h1 : mr - a = (mr - (a + 1)) + 1 := by omega
    have h2 : mr - 1 - a = (mr - 1 - (a + 1)) + 1 := by omega
    rw [h1, h2, backoffSleeps_succ]
    simp [List.range']
  | case3 a hlt hfl =>
    rw [hf a] at hfl
    simp at hfl
  | case4 a h => omega

theorem execute_table_batch_allFail (fails : Nat → Bool)
    (hf : ∀ x, fails x = true) (len mr : Nat) (d : ℚ) (hmr : 1 ≤ mr) :
    execute_table_batch fails len mr d =
      { successful := 0, failed := len,
        errors := List.range' 0 mr,
        sleeps := backoffSleeps d 1 (mr - 1),
        attempts := mr } := by
  rw [execute_table_batch,
    execute_table_batch_from_allFail fails hf len mr d 0 (by omega)]
  simp

theorem execute_table_batch_maxRetriesZero (fails : Nat → Bool) (len : Nat)
    (d : ℚ) :
    execute_table_batch fails len 0 d =
      { successful := 0, failed := 0, errors := [], sleeps := [], attempts := 0 } := by
  rw [execute_table_batch, execute_table_batch_from, dif_neg (by omega)]

theorem execute_table_batch_firstSuccess (fails : Nat → Bool)
    (hf : fails 0 = false) (len mr : Nat) (d : ℚ) (hmr : 1 ≤ mr) :
    execute_table_batch fails len mr d =
      { successful := len, failed := 0, errors := [], sleeps := [], attempts := 1 } := by
  rw [execute_table_batch, execute_table_batch_from, dif_pos (by omega : 0 < mr)]
  simp [hf]

theorem execute_delete_batch_from_sum (fails : Nat → Bool) (len mr : Nat)
    (d : ℚ) (a : Nat) :
    (execute_delete_batch_from fails len mr d a).successful
      + (execute_delete_batch_from fails len mr d a).failed = len := by
  induction a using execute_delete_batch_from.induct fails len mr d with
  | case1 hlt hfl =>
    rw [execute_delete_batch_from]
    simp only [hfl, dif_pos hlt, if_pos rfl, if_true]
    simp
  | case2 a hlt hfl hne ih =>
    rw [execute_delete_batch_from]
    simp only [hfl, dif_pos hlt, if_neg hne, if_true]
    simp only at ih ⊢
    omega
  | case3 a hlt hfl =>
    rw [execute_delete_batch_from]
    simp only [hfl, dif_pos hlt, Bool.false_eq_true, if_false]
    simp
  | case4 a h =>
    rw [execute_delete_batch_from]
    simp only [dif_neg h]
    simp

theorem execute_delete_batch_sum (fails : Nat → Bool) (len mr : Nat) (d : ℚ) :
    (execute_delete_batch fails len mr d).successful
      + (execute_delete_batch fails len mr d).failed = len :=
  execute_delete_batch_from_sum fails len mr d 0

theorem execute_delete_batch_from_allFail (fails : Nat → Bool)
    (hf : ∀ x, fails x = true) (len mr : Nat) (d : ℚ) (a : Nat) (ha : a < mr) :
    execute_delete_batch_from fails len mr d a =
      { successful := 0, failed := len,
        sleeps := backoffSleeps d (a + 1) (mr - 1 - a),
        attempts := mr - a } := by
  induction a using execute_delete_batch_from.induct fails len mr d with
  | case1 hlt hfl =>
    rw [execute_delete_batch_from]
    simp only [hfl, dif_pos hlt, if_pos rfl, if_true]
    have h1 : mr - (mr - 1) = 1 := by omega
    have h2 : mr - 1 - (mr - 1) = 0 := by omega
    rw [h1, h2]
    rfl
  | case2 a hlt hfl hne ih =>
    rw [execute_delete_batch_from]
    simp only [hfl, dif_pos hlt, if_neg hne, if_true]
    simp only at ih ⊢
    rw [ih (by omega : a + 1 < mr)]
    have h1 : mr - a = (mr - (a + 1)) + 1 := by omega
    have h2 : mr - 1 - a = (mr - 1 - (a + 1)) + 1 := by omega
    rw [h1, h2, backoffSleeps_succ]
    simp [List.range']
  | case3 a hlt hfl =>
    rw [hf a] at hfl
    simp at hfl
  | case4 a h => omega

theorem execute_delete_batch_allFail (fails : Nat → Bool)
    (hf : ∀ x, fails x = true) (len mr : Nat) (d : ℚ) (hmr : 1 ≤ mr) :
    execute_delete_batch fails len mr d =
      { successful := 0, failed := len,
        sleeps := backoffSleeps d 1 (mr - 1),
        attempts := mr } := by
  rw [execute_delete_batch,
    execute_delete_batch_from_allFail fails hf len mr d 0 (by omega)]
  simp

theorem execute_delete_batch_firstSuccess (fails : Nat → Bool)
    (hf : fails 0 = false) (len mr : Nat) (d : ℚ) (hmr : 1 ≤ mr) :
    execute_delete_batch fails len mr d =
      { successful := len, failed := 0, sleeps := [], attempts := 1 } := by
  rw [execute_delete_batch, execute_delete_batch_from, dif_pos (by omega : 0 < mr)]
  simp [hf]

/-- The linear backoff trace is strictly increasing when the base delay is
positive. -/
theorem backoffSleeps_chain_lt (d : ℚ) (hd : 0 < d) :
    ∀ (n s : Nat), List.Chain' (· < ·) (backoffSleeps d s n)
  | 0, _ => by simp [backoffSleeps, List.range']
  | 1, _ => by simp [backoffSleeps, List.range']
  | n + 2, s => by
    rw [backoffSleeps_succ, backoffSleeps_succ]
    refine List.Chain'.cons ?_ ?_
    · have hs : (s : ℚ) < ((s + 1 : Nat) : ℚ) := by push_cast; linarith
      exact mul_lt_mul_of_pos_left hs hd
    · rw [← backoffSleeps_succ]
      exact backoffSleeps_chain_lt d hd (n + 1) (s + 1)

/-! ### Lemmas about the page/batch slicing -/

theorem chunkList_cons (n : Nat) (hn : 1 ≤ n) (a : α) (t : List α) :
    chunkList n (a :: t) = (a :: t).take n :: chunkList n ((a :: t).drop n) := by
  rw [chunkList, dif_neg (by omega)]

theorem chunkList_ne_nil (n : Nat) (hn : 1 ≤ n) (a : α) (t : List α) :
    chunkList n (a :: t) ≠ [] := by
  rw [chunkList_cons n hn]
  exact List.cons_ne_nil _ _

theorem chunkList_flatten (n : Nat) (hn : 1 ≤ n) :
    ∀ (l : List α), (chunkList n l).flatten = l
  | [] => by simp [chunkList]
  | a :: t => by
    rw [chunkList_cons n hn, List.flatten_cons,
      chunkList_flatten n hn ((a :: t).drop n)]
    exact List.take_append_drop n (a :: t)
termination_by l => l.length
decreasing_by
  simp only [List.length_drop, List.length_cons]
  omega

theorem chunkList_mem_le (n : Nat) (hn : 1 ≤ n) :
    ∀ (l : List α), ∀ b ∈ chunkList n l, b ≠ [] ∧ b.length ≤ n
  | [] => by simp [chunkList]
  | a :: t => by
    intro b hb
    rw [chunkList_cons n hn] at hb
    rcases List.mem_cons.mp hb with rfl | hb
    · refine ⟨by simp [List.take_eq_nil_iff]; omega, ?_⟩
      simp [List.length_take]
    · exact chunkList_mem_le n hn ((a :: t).drop n) b hb
termination_by l => l.length
decreasing_by
  simp only [List.length_drop, List.length_cons]
  omega

theorem chunkList_length (n : Nat) (hn : 1 ≤ n) :
    ∀ (l : List α), (chunkList n l).length = (l.length + n - 1) / n
  | [] => by
    simp only [chunkList, List.length_nil]
    rw [Nat.div_eq_of_lt (by omega)]
  | a :: t => by
    rw [chunkList_cons n hn, List.length_cons,
      chunkList_length n hn ((a :: t).drop n)]
    simp only [List.length_drop, List.length_cons]
    rcases le_or_lt (t.length + 1) n with h | h
    · have h0 : t.length + 1 - n = 0 := by omega
      rw [h0]
      rw [show (0 + n - 1) / n = 0 from Nat.div_eq_of_lt (by omega)]
      rw [show (t.length + 1 + n - 1) / n = 1 from
        Nat.div_eq_of_lt_le (by omega) (by omega)]
    · have h1 : t.length + 1 - n + n - 1 = (t.length + 1 - 1) + 0 * n := by omega
      have h2 : t.length + 1 + n - 1 = (t.length + 1 - 1) + 1 * n := by omega
      rw [h1, h2, Nat.add_mul_div_right _ _ (by omega : 0 < n),
        Nat.add_mul_div_right _ _ (by omega : 0 < n)]
termination_by l => l.length
decreasing_by
  simp only [List.length_drop, List.length_cons]
  omega

theorem chunkList_dropLast (n : Nat) (hn : 1 ≤ n) :
    ∀ (l : List α), ∀ b ∈ (chunkList n l).dropLast, b.length = n
  | [] => by simp [chunkList]
  | a :: t => by
    intro b hb
    rw [chunkList_cons n hn] at hb
    cases hrec : chunkList n ((a :: t).drop n) with
    | nil => rw [hrec] at hb; simp at hb
    | cons c cs =>
      rw [hrec, List.dropLast_cons₂] at hb
      rcases List.mem_cons.mp hb with rfl | hb
      · have hne : (a :: t).drop n ≠ [] := by
          intro hdrop
          rw [hdrop] at hrec
          simp [chunkList] at hrec
        have hlen : n < (a :: t).length := by
          by_contra hcon
          exact hne (List.drop_eq_nil_of_le (by omega))
        simp only [List.length_take]
        omega
      · have ih := chunkList_dropLast n hn ((a :: t).drop n)
        rw [hrec] at ih
        exact ih b hb
termination_by l => l.length
decreasing_by
  simp only [List.length_drop, List.length_cons]
  omega

theorem chunkList_infix (n : Nat) :
    ∀ (l : List α), ∀ b ∈ chunkList n l, ∃ pre post, pre ++ b ++ post = l
  | [] => by simp [chunkList]
  | a :: t => by
    intro b hb
    by_cases hn : n = 0
    · rw [chunkList, dif_pos hn] at hb
      simp at hb
    · rw [chunkList_cons n (by omega)] at hb
      rcases List.mem_cons.mp hb with rfl | hb
      · exact ⟨[], (a :: t).drop n, by simp [List.take_append_drop]⟩
      · obtain ⟨pre, post, hp⟩ := chunkList_infix n ((a :: t).drop n) b hb
        refine ⟨(a :: t).take n ++ pre, post, ?_⟩
        rw [List.append_assoc, List.append_assoc, ← List.append_assoc pre, hp,
          List.take_append_drop]
termination_by l => l.length
decreasing_by
  simp only [List.length_drop, List.length_cons]
  omega

/-! ### Lemmas about the defaultdict grouping -/

theorem addToGroups_sizes [DecidableEq κ] (k : κ) (v : β) :
    ∀ (gs : List (κ × List β)),
      ((addToGroups gs k v).map fun p => p.2.length).sum
        = ((gs.map fun p => p.2.length).sum) + 1
  | [] => by simp [addToGroups]
  | (k', vs) :: rest => by
    rw [addToGroups]
    by_cases h : k' = k
    · simp [h]
      omega
    · simp [h, addToGroups_sizes k v rest]
      omega

theorem foldGroups_sizes [DecidableEq κ] (key : α → κ) (val : α → β) :
    ∀ (l : List α) (init : List (κ × List β)),
      (((l.foldl (fun gs a => addToGroups gs (key a) (val a)) init).map
          fun p => p.2.length).sum)
        = ((init.map fun p => p.2.length).sum) + l.length
  | [], _ => by simp
  | a :: t, init => by
    rw [List.foldl_cons, foldGroups_sizes key val t, addToGroups_sizes]
    simp
    omega

theorem groupPairsBy_sizes [DecidableEq κ] (key : α → κ) (val : α → β)
    (l : List α) :
    ((groupPairsBy key val l).map fun p => p.2.length).sum = l.length := by
  rw [groupPairsBy, foldGroups_sizes]
  simp

theorem addToGroups_keys [DecidableEq κ] (k : κ) (v : β) :
    ∀ (gs : List (κ × List β)),
      (addToGroups gs k v).map Prod.fst
        = if k ∈ gs.map Prod.fst then gs.map Prod.fst
          else gs.map Prod.fst ++ [k]
  | [] => by simp [addToGroups]
  | (k', vs) :: rest => by
    rw [addToGroups]
    by_cases h : k' = k
    · subst h
      simp
    · rw [if_neg h]
      simp only [List.map_cons, addToGroups_keys k v rest, List.mem_cons]
      by_cases hm : k ∈ rest.map Prod.fst
      · simp [hm]
      · simp [hm, show ¬ k = k' from fun hh => h hh.symm]

theorem addToGroups_keys_nodup [DecidableEq κ] (k : κ) (v : β)
    (gs : List (κ × List β)) (h : (gs.map Prod.fst).Nodup) :
    ((addToGroups gs k v).map Prod.fst).Nodup := by
  rw [addToGroups_keys]
  by_cases hm : k ∈ gs.map Prod.fst
  · simpa [hm]
  · rw [if_neg hm]
    simp [List.nodup_append, h, hm]

theorem addToGroups_mem_self [DecidableEq κ] (k : κ) (v : β) :
    ∀ (gs : List (κ × List β)), ∃ g ∈ addToGroups gs k v, g.1 = k ∧ v ∈ g.2
  | [] => ⟨(k, [v]), by simp [addToGroups]⟩
  | (k', vs) :: rest => by
    rw [addToGroups]
    by_cases h : k' = k
    · subst h
      exact ⟨(k', vs ++ [v]), by simp⟩
    · rw [if_neg h]
      obtain ⟨g, hg, hk, hv⟩ := addToGroups_mem_self k v rest
      exact ⟨g, List.mem_cons_of_mem _ hg, hk, hv⟩

theorem addToGroups_mem_mono [DecidableEq κ] (k : κ) (v : β) (k0 : κ) (x : β) :
    ∀ (gs : List (κ × List β)), (∃ g ∈ gs, g.1 = k0 ∧ x ∈ g.2) →
      ∃ g ∈ addToGroups gs k v, g.1 = k0 ∧ x ∈ g.2
  | [] => by simp
  | (k', vs) :: rest => by
    intro ⟨g, hg, hk, hx⟩
    rw [addToGroups]
    by_cases h : k' = k
    · subst h
      rcases List.mem_cons.mp hg with rfl | hg
      · exact ⟨(k', vs ++ [v]), by simp, hk, by simp [hx]⟩
      · exact ⟨g, by simp [List.mem_cons_of_mem _ hg], hk, hx⟩
    · rw [if_neg h]
      rcases List.mem_cons.mp hg with rfl | hg
      · exact ⟨(k', vs), by simp, hk, hx⟩
      · obtain ⟨g2, hg2, hk2, hx2⟩ := addToGroups_mem_mono k v k0 x rest ⟨g, hg, hk, hx⟩
        exact ⟨g2, List.mem_cons_of_mem _ hg2, hk2, hx2⟩

theorem nodup_fst_inj [DecidableEq κ] :
    ∀ (gs : List (κ × List β)), (gs.map Prod.fst).Nodup →
      ∀ g1 ∈ gs, ∀ g2 ∈ gs, g1.1 = g2.1 → g1 = g2
  | [], _, g1, hg1, _, _, _ => by simp at hg1
  | p :: rest, h, g1, hg1, g2, hg2, heq => by
    simp only [List.map_cons, List.nodup_cons] at h
    rcases List.mem_cons.mp hg1 with h1 | h1 <;>
      rcases List.mem_cons.mp hg2 with h2 | h2
    · rw [h1, h2]
    · have hm : g2.1 ∈ rest.map Prod.fst := List.mem_map_of_mem Prod.fst h2
      rw [← heq, h1] at hm
      exact absurd hm h.1
    · have hm : g1.1 ∈ rest.map Prod.fst := List.mem_map_of_mem Prod.fst h1
      rw [heq, h2] at hm
      exact absurd hm h.1
    · exact nodup_fst_inj rest h.2 g1 h1 g2 h2 heq

theorem two_le_length_of_two_mem :
    ∀ (l : List κ) (x y : κ), x ∈ l → y ∈ l → x ≠ y → 2 ≤ l.length
  | [], x, y, hx, _, _ => by simp at hx
  | [a], x, y, hx, hy, hxy => by
    simp at hx hy
    exact absurd (hx.trans hy.symm) hxy
  | _ :: _ :: _, _, _, _, _, _ => by
    simp only [List.length_cons]
    omega

/-! ### Column-set sub-groups of one insert batch -/

theorem addToGroups_homog_key [DecidableEq κ] (key : α → κ) (a : α) :
    ∀ (gs : List (κ × List α)),
      (∀ g ∈ gs, ∀ x ∈ g.2, key x = g.1) →
      ∀ g ∈ addToGroups gs (key a) a, ∀ x ∈ g.2, key x = g.1
  | [], _, g, hg, x, hx => by
    simp [addToGroups] at hg
    subst hg
    simp at hx
    subst hx
    rfl
  | (k', vs) :: rest, hinv, g, hg, x, hx => by
    rw [addToGroups] at hg
    by_cases h : k' = key a
    · rw [if_pos h] at hg
      rcases List.mem_cons.mp hg with rfl | hg
      · simp only at hx
        rcases List.mem_append.mp hx with hx | hx
        · exact hinv (k', vs) (by simp) x hx
        · simp at hx
          subst hx
          exact h.symm
      · exact hinv g (by simp [hg]) x hx
    · rw [if_neg h] at hg
      rcases List.mem_cons.mp hg with rfl | hg
      · exact hinv (k', vs) (by simp) x hx
      · exact addToGroups_homog_key key a rest
          (fun g2 hg2 => hinv g2 (by simp [hg2])) g hg x hx

theorem foldGroups_homog_key [DecidableEq κ] (key : α → κ) :
    ∀ (l : List α) (init : List (κ × List α)),
      (∀ g ∈ init, ∀ x ∈ g.2, key x = g.1) →
      ∀ g ∈ l.foldl (fun gs a => addToGroups gs (key a) a) init,
        ∀ x ∈ g.2, key x = g.1
  | [], _, hinv => hinv
  | a :: t, init, hinv => by
    rw [List.foldl_cons]
    exact foldGroups_homog_key key t _ (addToGroups_homog_key key a init hinv)

/-- Every record of a sub-group of `columns_groups` has the sub-group's
column-set key. -/
theorem columns_groups_homog (batch_data : List Record) :
    ∀ g ∈ columns_groups batch_data, ∀ r ∈ g.2, columnsKey r = g.1 := by
  have h := foldGroups_homog_key columnsKey batch_data [] (by simp)
  simpa [columns_groups, groupPairsBy] using h

theorem foldGroups_cover [DecidableEq κ] (key : α → κ) :
    ∀ (l : List α) (init : List (κ × List α)) (r : α),
      ((∃ g ∈ init, g.1 = key r ∧ r ∈ g.2) ∨ r ∈ l) →
      ∃ g ∈ l.foldl (fun gs a => addToGroups gs (key a) a) init,
        g.1 = key r ∧ r ∈ g.2
  | [], _, r, h => h.resolve_right (by simp)
  | a :: t, init, r, h => by
    rw [List.foldl_cons]
    apply foldGroups_cover key t
    rcases h with hin | hmem
    · exact Or.inl (addToGroups_mem_mono (key a) a (key r) r init hin)
    · rcases List.mem_cons.mp hmem with rfl | hr
      · exact Or.inl (addToGroups_mem_self (key r) r init)
      · exact Or.inr hr

/-- Every record of a batch lands in the sub-group keyed by its sorted
column set. -/
theorem columns_groups_cover (batch_data : List Record) :
    ∀ r ∈ batch_data,
      ∃ g ∈ columns_groups batch_data, g.1 = columnsKey r ∧ r ∈ g.2 := by
  intro r hr
  have h := foldGroups_cover columnsKey batch_data [] r (Or.inr hr)
  simpa [columns_groups, groupPairsBy] using h

theorem foldGroups_keys_nodup [DecidableEq κ] (key : α → κ) :
    ∀ (l : List α) (init : List (κ × List α)),
      (init.map Prod.fst).Nodup →
      ((l.foldl (fun gs a => addToGroups gs (key a) a) init).map Prod.fst).Nodup
  | [], _, h => h
  | a :: t, init, h => by
    rw [List.foldl_cons]
    exact foldGroups_keys_nodup key t _ (addToGroups_keys_nodup (key a) a init h)

/-- Distinct sub-groups of one batch carry distinct column-set keys. -/
theorem columns_groups_keys_nodup (batch_data : List Record) :
    ((columns_groups batch_data).map Prod.fst).Nodup := by
  have h := foldGroups_keys_nodup columnsKey batch_data [] (by simp)
  simpa [columns_groups, groupPairsBy] using h

/-! ### Index-carrying loops and sums -/

theorem mapWithIdx_eq_map (g : Nat → α → β) (h : α → β) :
    ∀ (l : List α) (s : Nat), (∀ i a, a ∈ l → g i a = h a) →
      mapWithIdx g s l = l.map h
  | [], _, _ => rfl
  | a :: t, s, hg => by
    rw [mapWithIdx, List.map_cons, hg s a (by simp),
      mapWithIdx_eq_map g h t (s + 1) (fun i x hx => hg i x (by simp [hx]))]

theorem mapWithIdx_map_proj (g : Nat → α → β) (h : β → γ) (h' : α → γ)
    (hg : ∀ i a, h (g i a) = h' a) :
    ∀ (s : Nat) (l : List α), (mapWithIdx g s l).map h = l.map h'
  | _, [] => rfl
  | s, a :: t => by
    rw [mapWithIdx, List.map_cons, List.map_cons, hg s a,
      mapWithIdx_map_proj g h h' hg (s + 1) t]

theorem chunkList_sizes_sum (n : Nat) (hn : 1 ≤ n) (l : List α) :
    ((chunkList n l).map List.length).sum = l.length := by
  rw [← List.length_flatten, chunkList_flatten n hn]

theorem mkTasks_len_sum (bs : Nat) (hbs : 1 ≤ bs) :
    ∀ (td : List (String × List Record)),
      ((mkTasks bs td).map fun task => task.2.1.length).sum
        = (td.map fun p => p.2.length).sum
  | [] => rfl
  | p :: rest => by
    have ih := mkTasks_len_sum bs hbs rest
    simp only [mkTasks] at ih ⊢
    rw [List.flatMap_cons, List.map_append, List.sum_append, ih]
    rw [mapWithIdx_map_proj (fun i b => (p.1, b, i))
      (fun task => task.2.1.length) List.length (fun _ _ => rfl)]
    rw [chunkList_sizes_sum bs hbs]
    simp

/-- The number of tasks a table contributes is its batch count. -/
theorem mapWithIdx_length (g : Nat → α → β) :
    ∀ (s : Nat) (l : List α), (mapWithIdx g s l).length = l.length
  | _, [] => rfl
  | s, a :: t => by
    rw [mapWithIdx, List.length_cons, List.length_cons,
      mapWithIdx_length g (s + 1) t]

/-! ### The as-completed aggregation loop -/

theorem sum_map_one : ∀ (l : List α), (l.map fun _ => (1 : Nat)).sum = l.length
  | [] => rfl
  | _ :: t => by
    simp [sum_map_one t]
    omega

theorem updateTable_sum (h : TableStats → Nat) (c : Nat)
    (f : TableStats → TableStats) (hf : ∀ ts, h (f ts) = h ts + c)
    (h0 : h TableStats.empty = 0) :
    ∀ (stats : List (String × TableStats)) (name : String),
      ((updateTable stats name f).map fun p => h p.2).sum
        = ((stats.map fun p => h p.2).sum) + c
  | [], name => by simp [updateTable, hf, h0]
  | (n, ts) :: rest, name => by
    rw [updateTable]
    by_cases hn : n = name
    · rw [if_pos hn]
      simp only [List.map_cons, List.sum_cons, hf]
      omega
    · rw [if_neg hn]
      simp only [List.map_cons, List.sum_cons,
        updateTable_sum h c f hf h0 rest name]
      omega

theorem foldTasks_sum (fails : String → Nat → Nat → Bool) (mr : Nat) (d : ℚ)
    (h : TableStats → Nat) (h0 : h TableStats.empty = 0)
    (proj : BatchOutcome → Nat)
    (hstep : ∀ (r : BatchOutcome) (bn : Nat) (ts : TableStats),
      h (applyOutcome r bn ts) = h ts + proj r) :
    ∀ (tasks : List (String × List Record × Nat))
      (init : List (String × TableStats)),
      ((tasks.foldl (taskStep fails mr d) init).map fun p => h p.2).sum
        = ((init.map fun p => h p.2).sum)
          + ((tasks.map fun task => proj (taskOutcome fails mr d task)).sum)
  | [], init => by simp
  | task :: rest, init => by
    rw [List.foldl_cons, foldTasks_sum fails mr d h h0 proj hstep rest]
    rw [taskStep, updateTable_sum h (proj (taskOutcome fails mr d task)) _
      (hstep (taskOutcome fails mr d task) task.2.2) h0]
    simp only [List.map_cons, List.sum_cons]
    omega

theorem runTasks_totalSuccessful (fails : String → Nat → Nat → Bool) (mr : Nat)
    (d : ℚ) (tasks : List (String × List Record × Nat)) :
    totalSuccessful (runTasks fails mr d tasks)
      = (tasks.map fun task => (taskOutcome fails mr d task).successful).sum := by
  have h := foldTasks_sum fails mr d (fun ts => ts.successful) rfl
    (fun r => r.successful) (fun _ _ _ => rfl) tasks []
  simpa [runTasks, totalSuccessful] using h

theorem runTasks_totalFailed (fails : String → Nat → Nat → Bool) (mr : Nat)
    (d : ℚ) (tasks : List (String × List Record × Nat)) :
    totalFailed (runTasks fails mr d tasks)
      = (tasks.map fun task => (taskOutcome fails mr d task).failed).sum := by
  have h := foldTasks_sum fails mr d (fun ts => ts.failed) rfl
    (fun r => r.failed) (fun _ _ _ => rfl) tasks []
  simpa [runTasks, totalFailed] using h

theorem runTasks_totalBatches (fails : String → Nat → Nat → Bool) (mr : Nat)
    (d : ℚ) (tasks : List (String × List Record × Nat)) :
    totalBatches (runTasks fails mr d tasks) = tasks.length := by
  have h := foldTasks_sum fails mr d (fun ts => ts.batches) rfl
    (fun _ => 1) (fun _ _ _ => rfl) tasks []
  rw [runTasks, totalBatches, h]
  simp [sum_map_one]

theorem updateTable_lookup_self :
    ∀ (stats : List (String × TableStats)) (name : String)
      (f : TableStats → TableStats),
      (updateTable stats name f).lookup name
        = some (f ((stats.lookup name).getD TableStats.empty))
  | [], name, f => by simp [updateTable, List.lookup]
  | (n, ts) :: rest, name, f => by
    rw [updateTable]
    by_cases hn : n = name
    · subst hn
      simp [List.lookup]
    · rw [if_neg hn]
      have hne : (name == n) = false :=
        beq_eq_false_iff_ne.mpr (fun hh => hn hh.symm)
      simp [List.lookup, hne, updateTable_lookup_self rest name f]

theorem updateTable_lookup_other :
    ∀ (stats : List (String × TableStats)) (name : String)
      (f : TableStats → TableStats) (other : String), other ≠ name →
      (updateTable stats name f).lookup other = stats.lookup other
  | [], name, f, other, h => by
    have hne : (other == name) = false := beq_eq_false_iff_ne.mpr h
    simp [updateTable, List.lookup, hne]
  | (n, ts) :: rest, name, f, other, h => by
    rw [updateTable]
    by_cases hn : n = name
    · subst hn
      have hne : (other == n) = false := beq_eq_false_iff_ne.mpr h
      simp [List.lookup, hne]
    · rw [if_neg hn]
      by_cases ho : other = n
      · subst ho
        simp [List.lookup]
      · have hne : (other == n) = false := beq_eq_false_iff_ne.mpr ho
        simp [List.lookup, hne, updateTable_lookup_other rest name f other h]

/-- Monotone view of a table accumulator: the failure count and the set of
recorded error messages only grow as further tasks are folded in. -/
def StatsLe (s t : TableStats) : Prop :=
  s.failed ≤ t.failed ∧ ∀ e ∈ s.errors, e ∈ t.errors

theorem StatsLe.refl (s : TableStats) : StatsLe s s :=
  ⟨le_refl _, fun _ h => h⟩

theorem StatsLe.trans {s t u : TableStats} (h1 : StatsLe s t)
    (h2 : StatsLe t u) : StatsLe s u :=
  ⟨h1.1.trans h2.1, fun e he => h2.2 e (h1.2 e he)⟩

theorem taskStep_lookup_mono (fails : String → Nat → Nat → Bool) (mr : Nat)
    (d : ℚ) (task : String × List Record × Nat)
    (stats : List (String × TableStats)) (tbl : String) (ts : TableStats)
    (h : stats.lookup tbl = some ts) :
    ∃ ts2, (taskStep fails mr d stats task).lookup tbl = some ts2
      ∧ StatsLe ts ts2 := by
  rw [taskStep]
  by_cases htbl : tbl = task.1
  · subst htbl
    rw [updateTable_lookup_self, h]
    refine ⟨_, rfl, ?_, ?_⟩
    · exact Nat.le_add_right _ _
    · intro e he
      exact List.mem_append_left _ he
  · rw [updateTable_lookup_other stats task.1 _ tbl htbl, h]
    exact ⟨ts, rfl, StatsLe.refl ts⟩

theorem foldTasks_lookup_mono (fails : String → Nat → Nat → Bool) (mr : Nat)
    (d : ℚ) :
    ∀ (tasks : List (String × List Record × Nat))
      (stats : List (String × TableStats)) (tbl : String) (ts : TableStats),
      stats.lookup tbl = some ts →
      ∃ ts2, (tasks.foldl (taskStep fails mr d) stats).lookup tbl = some ts2
        ∧ StatsLe ts ts2
  | [], stats, tbl, ts, h => ⟨ts, h, StatsLe.refl ts⟩
  | task :: rest, stats, tbl, ts, h => by
    rw [List.foldl_cons]
    obtain ⟨ts1, h1, hle1⟩ := taskStep_lookup_mono fails mr d task stats tbl ts h
    obtain ⟨ts2, h2, hle2⟩ := foldTasks_lookup_mono fails mr d rest _ tbl ts1 h1
    exact ⟨ts2, h2, hle1.trans hle2⟩

theorem lookup_le_sum (h : TableStats → Nat) :
    ∀ (stats : List (String × TableStats)) (tbl : String) (ts : TableStats),
      stats.lookup tbl = some ts → h ts ≤ (stats.map fun p => h p.2).sum
  | [], tbl, ts, hl => by simp [List.lookup] at hl
  | (n, ts') :: rest, tbl, ts, hl => by
    by_cases hb : tbl = n
    · subst hb
      simp [List.lookup] at hl
      subst hl
      simp only [List.map_cons, List.sum_cons]
      exact Nat.le_add_right _ _
    · have hne : (tbl == n) = false := beq_eq_false_iff_ne.mpr hb
      simp only [List.lookup, hne] at hl
      simp only [List.map_cons, List.sum_cons]
      exact (lookup_le_sum h rest tbl ts hl).trans (Nat.le_add_left _ _)

theorem lookup_map_of_fst (g : String → String × Nat)
    (hg : ∀ s, (g s).1 = s) :
    ∀ (ts : List String) (t : String), t ∈ ts →
      (ts.map g).lookup t = some (g t).2
  | [], t, ht => by simp at ht
  | s :: rest, t, ht => by
    rw [List.map_cons]
    rcases hgs : g s with ⟨k, b⟩
    have hk : k = s := by rw [← hg s, hgs]
    subst hk
    by_cases h : t = k
    · subst h
      rw [hgs]
      simp [List.lookup]
    · have hne : (t == k) = false := beq_eq_false_iff_ne.mpr h
      simp only [List.lookup, hne]
      have ht' : t ∈ rest := by
        rcases List.mem_cons.mp ht with rfl | ht'
        · exact absurd rfl h
        · exact ht'
      exact lookup_map_of_fst g hg rest t ht'

/-! ### Claim theorems -/

/-- C2, counterexample: the claim `successful + failed = len(batch)` fails
as stated, because with `max_retries = 0` the insert worker's loop body
never runs and it returns `(0, 0)` for a non-empty batch — here a batch of
one record yields `0 + 0 ≠ 1`. -/
theorem C2_batch_count_counterexample :
    (execute_table_batch (fun _ => true) 1 0 (1 / 2)).successful
      + (execute_table_batch (fun _ => true) 1 0 (1 / 2)).failed ≠ 1 := by
  simp [execute_table_batch, execute_table_batch_from]

/-- C2, amended: for `max_retries ≥ 1` the insert worker
`execute_table_batch` returns counts with `successful + failed = len(batch)`
(the whole batch succeeds, or the whole batch is marked failed on the last
attempt); the delete worker `execute_delete_batch` satisfies the same
identity for every `max_retries`, its post-loop fall-through returning
`(0, len(batch))`. -/
theorem C2_batch_count_amended (fi fd : Nat → Bool) (len mr : Nat) (d : ℚ) :
    (1 ≤ mr →
      (execute_table_batch fi len mr d).successful
        + (execute_table_batch fi len mr d).failed = len)
    ∧ (execute_delete_batch fd len mr d).successful
        + (execute_delete_batch fd len mr d).failed = len :=
  ⟨fun hmr => execute_table_batch_sum fi len mr d hmr,
    execute_delete_batch_sum fd len mr d⟩

/-- C2, witness: the amended identity evaluated for a batch of 3 records,
`max_retries = 2`, under a worker that fails its first attempt. -/
theorem C2_batch_count_amended_witness :
    (execute_table_batch (fun a => a = 0) 3 2 (1 / 2)).successful
      + (execute_table_batch (fun a => a = 0) 3 2 (1 / 2)).failed = 3
    ∧ (execute_delete_batch (fun a => a = 0) 3 2 (1 / 2)).successful
      + (execute_delete_batch (fun a => a = 0) 3 2 (1 / 2)).failed = 3 :=
  ⟨(C2_batch_count_amended (fun a => a = 0) (fun a => a = 0) 3 2 (1 / 2)).1
      (by omega),
    (C2_batch_count_amended (fun a => a = 0) (fun a => a = 0) 3 2 (1 / 2)).2⟩

/-- C3: with `max_retries = N ≥ 1` and a grouped execution that always
fails, both workers enter the try-block exactly `N` times, mark the whole
batch failed, and sleep `retry_delay * k` for `k = 1, ..., N - 1` between
consecutive attempts (`backoffSleeps d 1 (N - 1)` is that list), a
strictly increasing linear backoff whenever `retry_delay > 0`. -/
theorem C3_retry_backoff (fi fd : Nat → Bool) (hfi : ∀ x, fi x = true)
    (hfd : ∀ x, fd x = true) (len N : Nat) (hN : 1 ≤ N) (d : ℚ) :
    (execute_table_batch fi len N d).attempts = N
    ∧ (execute_table_batch fi len N d).failed = len
    ∧ (execute_table_batch fi len N d).sleeps = backoffSleeps d 1 (N - 1)
    ∧ (execute_delete_batch fd len N d).attempts = N
    ∧ (execute_delete_batch fd len N d).failed = len
    ∧ (execute_delete_batch fd len N d).sleeps = backoffSleeps d 1 (N - 1)
    ∧ (0 < d → List.Chain' (· < ·) (backoffSleeps d 1 (N - 1))) := by
  rw [execute_table_batch_allFail fi hfi len N d hN,
    execute_delete_batch_allFail fd hfd len N d hN]
  exact ⟨rfl, rfl, rfl, rfl, rfl, rfl,
    fun hd => backoffSleeps_chain_lt d hd (N - 1) 1⟩

/-- C3, witness: `N = 3`, `retry_delay = 1/2`: 3 attempts, sleeps
`[1/2, 1]`, strictly increasing. -/
theorem C3_retry_backoff_witness :
    (execute_table_batch (fun _ => true) 7 3 (1 / 2)).attempts = 3
    ∧ (execute_table_batch (fun _ => true) 7 3 (1 / 2)).failed = 7
    ∧ (execute_table_batch (fun _ => true) 7 3 (1 / 2)).sleeps
        = backoffSleeps (1 / 2) 1 2
    ∧ (execute_delete_batch (fun _ => true) 7 3 (1 / 2)).attempts = 3
    ∧ (execute_delete_batch (fun _ => true) 7 3 (1 / 2)).failed = 7
    ∧ (execute_delete_batch (fun _ => true) 7 3 (1 / 2)).sleeps
        = backoffSleeps (1 / 2) 1 2
    ∧ ((0 : ℚ) < 1 / 2 → List.Chain' (· < ·) (backoffSleeps (1 / 2) 1 2)) :=
  C3_retry_backoff (fun _ => true) (fun _ => true) (fun _ => rfl)
    (fun _ => rfl) 7 3 (by omega) (1 / 2)

/-- The five-row table of the spec's paging scenario. -/
def fiveRows : List RowKey := [[0], [1], [2], [3], [4]]

/-- C7: each scanned page is cut, in order, into
`ceil(len(page) / batch_size)` batches whose sizes are exactly
`batch_size` except possibly the last; every executed batch is a
contiguous segment of a single page (no batch straddles a page boundary);
and in the spec's scenario (`page_size = 2`, 5 rows, `batch_size = 2`)
the page sizes are `[2, 2, 1]` and the executed batch sizes are
`[2, 2, 1]`. -/
theorem C7_page_batch_decomposition (page_size batch_size : Nat)
    (hb : 1 ≤ batch_size) (rows : List RowKey) :
    (∀ page ∈ scanPages page_size rows,
      (chunkList batch_size page).length
          = (page.length + batch_size - 1) / batch_size
        ∧ (chunkList batch_size page).flatten = page
        ∧ (∀ b ∈ chunkList batch_size page, b ≠ [] ∧ b.length ≤ batch_size)
        ∧ (∀ b ∈ (chunkList batch_size page).dropLast, b.length = batch_size))
    ∧ (∀ b ∈ executedBatches page_size batch_size rows,
        ∃ page ∈ scanPages page_size rows, ∃ pre post, pre ++ b ++ post = page)
    ∧ (scanPages 2 fiveRows).map List.length = [2, 2, 1]
    ∧ (executedBatches 2 2 fiveRows).map List.length = [2, 2, 1] := by
  refine ⟨fun page _ => ⟨chunkList_length batch_size hb page,
      chunkList_flatten batch_size hb page,
      chunkList_mem_le batch_size hb page,
      chunkList_dropLast batch_size hb page⟩, ?_, ?_, ?_⟩
  · intro b hb2
    rw [executedBatches] at hb2
    obtain ⟨page, hpage, hbp⟩ := List.mem_flatMap.mp hb2
    exact ⟨page, hpage, chunkList_infix batch_size page b hbp⟩
  · simp [scanPages, fiveRows, chunkList]
  · simp [executedBatches, scanPages, fiveRows, chunkList]

/-- C7, witness: the general clauses evaluated at the spec's scenario. -/
theorem C7_page_batch_decomposition_witness :
    (scanPages 2 fiveRows).map List.length = [2, 2, 1]
    ∧ (executedBatches 2 2 fiveRows).map List.length = [2, 2, 1] :=
  ⟨(C7_page_batch_decomposition 2 2 (by omega) fiveRows).2.2.1,
    (C7_page_batch_decomposition 2 2 (by omega) fiveRows).2.2.2⟩

/-- C8: within one insert batch the records are partitioned by
`tuple(sorted(record.keys()))`: every record lands in the sub-group keyed
by its sorted column tuple, the sub-group sizes sum back to the batch
size, two records with the same column-set key always share a sub-group,
two records with different column-set keys never share one, and 3 records
with pairwise different column sets produce at least 2 sub-groups.  The
grouping is recomputed inside every retry attempt of
`execute_table_batch`, so all sub-groups of a batch share the batch's
single retry unit. -/
theorem C8_column_set_grouping (batch_data : List Record) :
    (∀ r ∈ batch_data,
      ∃ g ∈ columns_groups batch_data, g.1 = columnsKey r ∧ r ∈ g.2)
    ∧ (((columns_groups batch_data).map fun p => p.2.length).sum
        = batch_data.length)
    ∧ (∀ g1 ∈ columns_groups batch_data, ∀ g2 ∈ columns_groups batch_data,
        ∀ r1 ∈ g1.2, ∀ r2 ∈ g2.2,
          (columnsKey r1 = columnsKey r2 → g1 = g2)
          ∧ (columnsKey r1 ≠ columnsKey r2 → g1 ≠ g2))
    ∧ (∀ r1 r2 r3 : Record, batch_data = [r1, r2, r3] →
        columnsKey r1 ≠ columnsKey r2 → columnsKey r1 ≠ columnsKey r3 →
        columnsKey r2 ≠ columnsKey r3 →
        2 ≤ (columns_groups batch_data).length) := by
  refine ⟨columns_groups_cover batch_data,
    groupPairsBy_sizes columnsKey id batch_data, ?_, ?_⟩
  · intro g1 hg1 g2 hg2 r1 hr1 r2 hr2
    have hk1 := columns_groups_homog batch_data g1 hg1 r1 hr1
    have hk2 := columns_groups_homog batch_data g2 hg2 r2 hr2
    constructor
    · intro heq
      exact nodup_fst_inj _ (columns_groups_keys_nodup batch_data) g1 hg1 g2
        hg2 (by rw [← hk1, ← hk2, heq])
    · intro hne hcontra
      exact hne (by rw [hk1, hk2, hcontra])
  · intro r1 r2 r3 hb h12 _ _
    obtain ⟨g1, hg1, hk1, _⟩ := columns_groups_cover batch_data r1 (by simp [hb])
    obtain ⟨g2, hg2, hk2, _⟩ := columns_groups_cover batch_data r2 (by simp [hb])
    have hmem1 : columnsKey r1 ∈ (columns_groups batch_data).map Prod.fst := by
      rw [← hk1]
      exact List.mem_map_of_mem Prod.fst hg1
    have hmem2 : columnsKey r2 ∈ (columns_groups batch_data).map Prod.fst := by
      rw [← hk2]
      exact List.mem_map_of_mem Prod.fst hg2
    have h2 := two_le_length_of_two_mem _ _ _ hmem1 hmem2 h12
    simpa using h2

/-- C8, witness: three records with pairwise different column sets yield
at least two sub-groups. -/
theorem C8_column_set_grouping_witness :
    2 ≤ (columns_groups [[("a", 1)], [("b", 2)], [("c", 3)]]).length :=
  (C8_column_set_grouping [[("a", 1)], [("b", 2)], [("c", 3)]]).2.2.2
    [("a", 1)] [("b", 2)] [("c", 3)] rfl
    (by simp [columnsKey, List.insertionSort, List.orderedInsert])
    (by simp [columnsKey, List.insertionSort, List.orderedInsert])
    (by simp [columnsKey, List.insertionSort, List.orderedInsert])

/-- C10: for the empty records list `batch_insert_dicts_to_cassandra`
returns, without raising, the dict
`{'total_records': 0, 'tables': {}, 'execution_time': 0}`, which lacks the
`total_successful`, `total_failed`, `success_rate` and `records_per_second`
keys, while the report for every non-empty input carries all four. -/
theorem C10_empty_records_report (fails : String → Nat → Nat → Bool)
    (bs mr : Nat) (d el : ℚ) :
    (batch_insert_dicts_to_cassandra fails [] bs mr d el
      = [("total_records", Val.nat 0), ("tables", Val.tbl []),
         ("execution_time", Val.rat 0)])
    ∧ (batch_insert_dicts_to_cassandra fails [] bs mr d el).lookup
        "total_successful" = none
    ∧ (batch_insert_dicts_to_cassandra fails [] bs mr d el).lookup
        "total_failed" = none
    ∧ (batch_insert_dicts_to_cassandra fails [] bs mr d el).lookup
        "success_rate" = none
    ∧ (batch_insert_dicts_to_cassandra fails [] bs mr d el).lookup
        "records_per_second" = none
    ∧ (∀ (records : List (String × Record)), records ≠ [] →
        ((batch_insert_dicts_to_cassandra fails records bs mr d el).lookup
            "total_successful").isSome = true
        ∧ ((batch_insert_dicts_to_cassandra fails records bs mr d el).lookup
            "total_failed").isSome = true
        ∧ ((batch_insert_dicts_to_cassandra fails records bs mr d el).lookup
            "success_rate").isSome = true
        ∧ ((batch_insert_dicts_to_cassandra fails records bs mr d el).lookup
            "records_per_second").isSome = true) := by
  refine ⟨rfl, rfl, rfl, rfl, rfl, ?_⟩
  intro records h
  rw [batch_insert_dicts_to_cassandra, if_neg h]
  exact ⟨rfl, rfl, rfl, rfl⟩

/-- C10, witness: the four keys are present for a one-record input. -/
theorem C10_empty_records_report_witness :
    ((batch_insert_dicts_to_cassandra (fun _ _ _ => false) [("t", [("a", 1)])]
        100 3 (1 / 2) 1).lookup "total_successful").isSome = true :=
  ((C10_empty_records_report (fun _ _ _ => false) 100 3 (1 / 2) 1).2.2.2.2.2
    [("t", [("a", 1)])] (by simp)).1

/-- C9, counterexample: an empty records collection does not raise a
configuration error — `batch_insert_dicts_to_cassandra` returns the stub
report (the model is total on this input, mirroring the code path
`return {'total_records': 0, 'tables': {}, 'execution_time': 0}`), so the
claim that the operation raises immediately and produces no report is
false for this invalid-input example. -/
theorem C9_empty_input_counterexample :
    batch_insert_dicts_to_cassandra (fun _ _ _ => false) [] 100 3 (1 / 2) 0
      = [("total_records", Val.nat 0), ("tables", Val.tbl []),
         ("execution_time", Val.rat 0)] := rfl

/-- C9, amended: an empty table list passed to
`delete_all_rows_batch_multiple` does raise before any per-table work —
the `ThreadPoolExecutor` constructor rejects
`max_workers = min(len(table_names), concurrency) = 0` with `ValueError` —
and produces no report; but an empty records collection does not raise:
`batch_insert_dicts_to_cassandra` logs a warning and immediately returns
the stub report `{'total_records': 0, 'tables': {}, 'execution_time': 0}`. -/
theorem C9_empty_input_amended (tablesMeta : String → Option TableMeta)
    (rowsOf : String → List RowKey) (fd : String → Nat → Nat → Nat → Bool)
    (fi : String → Nat → Nat → Bool) (ps bs conc mr : Nat) (d el : ℚ) :
    delete_all_rows_batch_multiple tablesMeta rowsOf fd [] ps bs conc mr d
      = Except.error "ThreadPoolExecutor: max_workers must be greater than 0"
    ∧ batch_insert_dicts_to_cassandra fi [] bs mr d el
      = [("total_records", Val.nat 0), ("tables", Val.tbl []),
         ("execution_time", Val.rat 0)] := by
  constructor
  · rw [delete_all_rows_batch_multiple]
    simp
  · rfl

/-- C1, counterexample: one record inserted successfully yields
`success_rate = 100`, not `1`: the code computes
`total_successful / total_records * 100`, a percentage, so the claimed
identity `success_rate = total_successful / total_records` and the claimed
range `[0, 1]` are both false. -/
theorem C1_success_rate_counterexample :
    (batch_insert_dicts_to_cassandra (fun _ _ _ => false) [("t", [("a", 1)])]
        100 1 0 1).lookup "success_rate" = some (Val.rat 100)
    ∧ ¬ ((100 : ℚ) ≤ 1)
    ∧ (100 : ℚ) ≠ 1 / 1 := by
  refine ⟨?_, by norm_num, by norm_num⟩
  simp [batch_insert_dicts_to_cassandra, runTasks, mkTasks, tables_data,
    groupPairsBy, addToGroups, chunkList, mapWithIdx, taskStep, taskOutcome,
    execute_table_batch, execute_table_batch_from, updateTable,
    totalSuccessful, List.lookup, applyOutcome, TableStats.empty]

/-- C1, amended: for every non-empty records list and positive batch size
the report's `success_rate` equals
`total_successful / total_records * 100`, which lies in `[0, 100]` since
at most `total_records` records can be counted successful; and
`records_per_second` is exactly `0` when the measured elapsed time is `0`
— neither computation divides by zero. -/
theorem C1_success_rate_amended (fails : String → Nat → Nat → Bool)
    (records : List (String × Record)) (hne : records ≠ [])
    (bs mr : Nat) (hbs : 1 ≤ bs) (d el : ℚ) :
    totalSuccessful (runTasks fails mr d (mkTasks bs (tables_data records)))
      ≤ records.length
    ∧ (batch_insert_dicts_to_cassandra fails records bs mr d el).lookup
        "total_successful"
      = some (Val.nat (totalSuccessful
          (runTasks fails mr d (mkTasks bs (tables_data records)))))
    ∧ (batch_insert_dicts_to_cassandra fails records bs mr d el).lookup
        "success_rate"
      = some (Val.rat ((totalSuccessful
            (runTasks fails mr d (mkTasks bs (tables_data records))) : ℚ)
          / (records.length : ℚ) * 100))
    ∧ (0 : ℚ) ≤ (totalSuccessful
          (runTasks fails mr d (mkTasks bs (tables_data records))) : ℚ)
        / (records.length : ℚ) * 100
    ∧ (totalSuccessful
          (runTasks fails mr d (mkTasks bs (tables_data records))) : ℚ)
        / (records.length : ℚ) * 100 ≤ 100
    ∧ (el = 0 →
        (batch_insert_dicts_to_cassandra fails records bs mr d el).lookup
          "records_per_second" = some (Val.rat 0)) := by
  have hle : totalSuccessful
      (runTasks fails mr d (mkTasks bs (tables_data records)))
      ≤ records.length := by
    rw [runTasks_totalSuccessful]
    calc ((mkTasks bs (tables_data records)).map
            fun task => (taskOutcome fails mr d task).successful).sum
        ≤ ((mkTasks bs (tables_data records)).map
            fun task => task.2.1.length).sum := by
          apply List.sum_le_sum
          intro task _
          exact execute_table_batch_successful_le _ _ _ _
      _ = records.length := by
          rw [mkTasks_len_sum bs hbs, tables_data, groupPairsBy_sizes]
  have hlen : 0 < records.length := List.length_pos.mpr hne
  have hposq : (0 : ℚ) < (records.length : ℚ) := by exact_mod_cast hlen
  refine ⟨hle, ?_, ?_, ?_, ?_, ?_⟩
  · rw [batch_insert_dicts_to_cassandra, if_neg hne]
    rfl
  · rw [batch_insert_dicts_to_cassandra, if_neg hne]
    simp only []
    rw [if_pos (show records.length > 0 from hlen)]
    rfl
  · positivity
  · have h1 : (totalSuccessful
        (runTasks fails mr d (mkTasks bs (tables_data records))) : ℚ)
        / (records.length : ℚ) ≤ 1 :=
      (div_le_one hposq).mpr (by exact_mod_cast hle)
    calc (totalSuccessful
          (runTasks fails mr d (mkTasks bs (tables_data records))) : ℚ)
        / (records.length : ℚ) * 100 ≤ 1 * 100 :=
          mul_le_mul_of_nonneg_right h1 (by norm_num)
      _ = 100 := by norm_num
  · intro hel
    subst hel
    rw [batch_insert_dicts_to_cassandra, if_neg hne]
    simp only []
    rw [if_neg (by norm_num : ¬ ((0 : ℚ) > 0))]
    rfl

/-- C1, witness: the amended clauses evaluated for a one-record input with
zero elapsed time. -/
theorem C1_success_rate_amended_witness :
    (batch_insert_dicts_to_cassandra (fun _ _ _ => false) [("t", [("a", 1)])]
        100 1 0 0).lookup "records_per_second" = some (Val.rat 0) :=
  (C1_success_rate_amended (fun _ _ _ => false) [("t", [("a", 1)])]
    (by simp) 100 1 (by omega) 0 0).2.2.2.2.2 rfl

theorem process_table_fst (tablesMeta : String → Option TableMeta)
    (rowsOf : String → List RowKey) (fails : Nat → Nat → Nat → Bool)
    (ps bs mr : Nat) (d : ℚ) (t : String) :
    (process_table tablesMeta rowsOf fails ps bs mr d t).1 = t := by
  cases h : tablesMeta t <;> simp [process_table, h]

/-- C5: in `delete_all_rows_batch_multiple` over a list of tables, a table
missing from the keyspace metadata is skipped (the metadata-preparation
loop logged a warning and left it out, so `process_table` returns a
deleted count of 0 for it), while every table of the list — the missing
one included — receives exactly its own independently computed
`process_table` result in the returned mapping; the missing table never
aborts the sibling tables or the overall call. -/
theorem C5_missing_table_skipped (tablesMeta : String → Option TableMeta)
    (rowsOf : String → List RowKey) (fails : String → Nat → Nat → Nat → Bool)
    (tables : List String) (ps bs conc mr : Nat) (d : ℚ)
    (t0 : String) (h0 : t0 ∈ tables) (hmiss : tablesMeta t0 = none)
    (hpool : min tables.length conc ≠ 0) :
    ∃ res, delete_all_rows_batch_multiple tablesMeta rowsOf fails tables ps
        bs conc mr d = Except.ok res
      ∧ res.lookup t0 = some 0
      ∧ (∀ t ∈ tables, res.lookup t
          = some (process_table tablesMeta rowsOf (fails t) ps bs mr d t).2) := by
  have hfst : ∀ s : String,
      ((fun t => process_table tablesMeta rowsOf (fails t) ps bs mr d t) s).1
        = s :=
    fun s => process_table_fst tablesMeta rowsOf (fails s) ps bs mr d s
  refine ⟨tables.map fun t =>
      process_table tablesMeta rowsOf (fails t) ps bs mr d t, ?_, ?_, ?_⟩
  · rw [delete_all_rows_batch_multiple, if_neg hpool]
  · rw [lookup_map_of_fst _ hfst tables t0 h0]
    simp [process_table, hmiss]
  · intro t ht
    exact lookup_map_of_fst _ hfst tables t ht

/-- C5, witness: two tables where the metadata lookup of `"a"` fails:
`"a"` reports 0, `"b"` reports its own count, and the call succeeds. -/
theorem C5_missing_table_skipped_witness :
    ∃ res, delete_all_rows_batch_multiple
        (fun n => if n = "a" then none else some ⟨["id"], []⟩)
        (fun _ => [[1], [2], [3]]) (fun _ _ _ _ => false)
        ["a", "b"] 2 2 4 3 (1 / 2) = Except.ok res
      ∧ res.lookup "a" = some 0
      ∧ (∀ t ∈ ["a", "b"], res.lookup t
          = some (process_table (fun n => if n = "a" then none else some ⟨["id"], []⟩)
              (fun _ => [[1], [2], [3]]) ((fun _ _ _ _ => false) t) 2 2 3 (1 / 2) t).2) :=
  C5_missing_table_skipped (fun n => if n = "a" then none else some ⟨["id"], []⟩)
    (fun _ => [[1], [2], [3]]) (fun _ _ _ _ => false) ["a", "b"] 2 2 4 3 (1 / 2)
    "a" (by simp) (by simp) (by simp)

/-- C6, counterexample: a one-row table whose only delete batch always
fails reports a deleted count of 0 while 1 row was observed across the
scan pages — `process_table` adds only the `successful` count of each
batch, so rows of a batch that exhausted its retries are not counted. -/
theorem C6_deleted_count_counterexample :
    (process_table (fun _ => some ⟨["id"], []⟩)
        (fun _ => [[1]]) (fun _ _ _ => true) 1 1 1 0 "t").2 = 0
    ∧ (((fun _ => [[(1 : Int)]] : String → List RowKey)) "t").length = 1 := by
  constructor
  · simp [process_table, chunkList, mapWithIdx, execute_delete_batch,
      execute_delete_batch_from]
  · rfl

/-- C6, amended: when every batch's first delete attempt succeeds,
`process_table` reports exactly the number of rows observed across all
scan pages, and an empty scan reports 0; the single-table
`delete_all_rows` counts every processed row unconditionally, so its
total always equals the rows observed.  When a batch exhausts its
retries, however, `process_table` omits that batch's rows from the
reported count (see the counterexample). -/
theorem C6_deleted_count_amended (tablesMeta : String → Option TableMeta)
    (rowsOf : String → List RowKey) (fails : Nat → Nat → Nat → Bool)
    (ps bs conc mr : Nat) (hps : 1 ≤ ps) (hbs : 1 ≤ bs) (hconc : 1 ≤ conc)
    (hmr : 1 ≤ mr) (d : ℚ) (t : String) (m : TableMeta)
    (hm : tablesMeta t = some m)
    (hok : ∀ p b, fails p b 0 = false) :
    (process_table tablesMeta rowsOf fails ps bs mr d t).2 = (rowsOf t).length
    ∧ (rowsOf t = [] →
        (process_table tablesMeta rowsOf fails ps bs mr d t).2 = 0)
    ∧ (m.partition_key ++ m.clustering_key ≠ [] →
        delete_all_rows tablesMeta rowsOf ps conc t
          = Except.ok (rowsOf t).length) := by
  have hmain : (process_table tablesMeta rowsOf fails ps bs mr d t).2
      = (rowsOf t).length := by
    simp only [process_table, hm]
    have hout : ∀ (i : Nat) (page : List RowKey),
        page ∈ chunkList ps (rowsOf t) →
        (mapWithIdx (fun b batch =>
            (execute_delete_batch (fails i b) (List.length batch) mr d).successful)
          1 (chunkList bs page)).sum
          = ((chunkList bs page).map List.length).sum := by
      intro i page _
      have hin : ∀ (j : Nat) (batch : List RowKey),
          batch ∈ chunkList bs page →
          (execute_delete_batch (fails i j) (List.length batch) mr d).successful
            = List.length batch := by
        intro j batch _
        rw [execute_delete_batch_firstSuccess (fails i j) (hok i j)
          (List.length batch) mr d hmr]
      rw [mapWithIdx_eq_map _ List.length (chunkList bs page) 1 hin]
    rw [mapWithIdx_eq_map _
      (fun page => ((chunkList bs page).map List.length).sum)
      (chunkList ps (rowsOf t)) 1 hout]
    rw [List.map_congr_left
      (fun page _ => chunkList_sizes_sum bs hbs page)]
    exact chunkList_sizes_sum ps hps (rowsOf t)
  refine ⟨hmain, ?_, ?_⟩
  · intro hempty
    rw [hmain, hempty]
    rfl
  · intro hpk
    simp only [delete_all_rows, hm]
    rw [if_neg hpk]
    congr 1
    rw [List.map_congr_left
      (fun page _ => chunkList_sizes_sum conc hconc page)]
    exact chunkList_sizes_sum ps hps (rowsOf t)

/-- C6, witness: the amended count evaluated for a 5-row table scanned in
pages of 2 and deleted in batches of 2, all batches succeeding. -/
theorem C6_deleted_count_amended_witness :
    (process_table (fun _ => some ⟨["id"], []⟩)
        (fun _ => [[1], [2], [3], [4], [5]]) (fun _ _ _ => false)
        2 2 3 (1 / 2) "t").2
      = (((fun _ => [[1], [2], [3], [4], [5]] : String → List RowKey)) "t").length :=
  (C6_deleted_count_amended (fun _ => some ⟨["id"], []⟩)
    (fun _ => [[1], [2], [3], [4], [5]]) (fun _ _ _ => false)
    2 2 4 3 (by omega) (by omega) (by omega) (by omega) (1 / 2) "t"
    ⟨["id"], []⟩ rfl (fun _ _ => rfl)).1

/-- C4: the batch executor recovers every per-batch failure: with
`max_retries ≥ 1`, for any task list containing a batch whose grouped
execution always fails, the aggregation loop still processes every task
(the batches counter equals the number of tasks), the failing batch's
entire record count is added to its table's `failed` count, the error
message of its last attempt — identified as `(batch_num, max_retries - 1)`
— is recorded in that table's error list, the overall failed total
includes the whole batch, and for every non-empty input the final report
is still produced, carrying the accumulated per-table stats under its
`tables` key. -/
theorem C4_failed_batch_isolated (fails : String → Nat → Nat → Bool)
    (mr : Nat) (hmr : 1 ≤ mr) (d : ℚ)
    (tasks : List (String × List Record × Nat))
    (tbl : String) (batch : List Record) (bn : Nat)
    (hmem : (tbl, batch, bn) ∈ tasks)
    (hfail : ∀ a, fails tbl bn a = true) :
    totalBatches (runTasks fails mr d tasks) = tasks.length
    ∧ (∃ ts, (runTasks fails mr d tasks).lookup tbl = some ts
        ∧ batch.length ≤ ts.failed
        ∧ (bn, mr - 1) ∈ ts.errors)
    ∧ batch.length ≤ totalFailed (runTasks fails mr d tasks)
    ∧ (∀ (records : List (String × Record)), records ≠ [] →
        ∀ (bs : Nat) (el : ℚ),
        (batch_insert_dicts_to_cassandra fails records bs mr d el).lookup
            "tables"
          = some (Val.tbl (runTasks fails mr d
              (mkTasks bs (tables_data records))))) := by
  have houtcome : taskOutcome fails mr d (tbl, batch, bn)
      = { successful := 0, failed := batch.length,
          errors := List.range' 0 mr,
          sleeps := backoffSleeps d 1 (mr - 1), attempts := mr } := by
    rw [taskOutcome]
    exact execute_table_batch_allFail (fails tbl bn) hfail batch.length mr d hmr
  have hmid : ∃ ts, (runTasks fails mr d tasks).lookup tbl = some ts
      ∧ batch.length ≤ ts.failed
      ∧ (bn, mr - 1) ∈ ts.errors := by
    obtain ⟨pre, post, hsplit⟩ := List.append_of_mem hmem
    subst hsplit
    rw [runTasks, List.foldl_append, List.foldl_cons]
    have hstep : (taskStep fails mr d (pre.foldl (taskStep fails mr d) [])
        (tbl, batch, bn)).lookup tbl
        = some (applyOutcome (taskOutcome fails mr d (tbl, batch, bn)) bn
            (((pre.foldl (taskStep fails mr d) []).lookup tbl).getD
              TableStats.empty)) :=
      updateTable_lookup_self (pre.foldl (taskStep fails mr d) []) tbl _
    obtain ⟨ts2, hts2, hle⟩ :=
      foldTasks_lookup_mono fails mr d post _ tbl _ hstep
    refine ⟨ts2, hts2, ?_, ?_⟩
    · refine le_trans ?_ hle.1
      rw [houtcome, applyOutcome]
      exact Nat.le_add_left _ _
    · apply hle.2
      rw [houtcome, applyOutcome]
      simp only
      apply List.mem_append_right
      apply List.mem_map.mpr
      refine ⟨mr - 1, ?_, rfl⟩
      exact List.mem_range'.mpr ⟨mr - 1, by omega, by omega⟩
  refine ⟨runTasks_totalBatches fails mr d tasks, hmid, ?_, ?_⟩
  · obtain ⟨ts, hts, hfailed, _⟩ := hmid
    exact hfailed.trans (lookup_le_sum (fun s => s.failed)
      (runTasks fails mr d tasks) tbl ts hts)
  · intro records h bs el
    rw [batch_insert_dicts_to_cassandra, if_neg h]
    rfl

/-- C4, witness: a single always-failing one-record batch is still
processed and counted. -/
theorem C4_failed_batch_isolated_witness :
    totalBatches (runTasks (fun _ _ _ => true) 2 (1 / 2)
      [("t", [[("a", 1)]], 1)]) = 1 :=
  (C4_failed_batch_isolated (fun _ _ _ => true) 2 (by omega) (1 / 2)
    [("t", [[("a", 1)]], 1)] "t" [[("a", 1)]] 1 (by simp)
    (fun _ => rfl)).1

end CassandraModel
